import Mathlib

/-!
Shallow embedding of `desida.prodjobs` (desihub/desida, `src/py/desida/prodjobs.py`).

The module aggregates batch-queue accounting records of a spectroscopic
production into one table (`load_qinfo`) and reduces that table to one
summary row per job category (`summarize_qinfo`).

Modelling conventions:
* Python strings are `String`, processed through their character list
  (`String.data`); `str.split(sep)` for a one-character separator is
  `splitOnChar`, and Python `int(...)` is `parseInt` (optional minus sign
  followed by decimal digits; the rarely used forms `"+5"`, underscores and
  surrounding whitespace are not modelled).
* Floating point numbers are modelled as exact rationals `ℚ`; Python/numpy
  `round(x, n)` (round half to even at `n` decimals) is `roundDec n`.
* An astropy `Table` is a `List` of row structures; a fatal Python exception
  is `Option.none` in the result type.
* The external collaborators (file system globs, the `sacct` queue query)
  enter as explicit inputs: the list of processing tables, the list of
  healpix log filenames, and the accounting records themselves.
-/

/-- Python `s.split(c)` for a single-character separator: `splitOnCharAux`
accumulates the current field (reversed) and flushes it at each separator. -/
def splitOnCharAux (sep : Char) : List Char → List Char → List (List Char)
  | [], acc => [acc.reverse]
  | c :: cs, acc =>
    if c = sep then acc.reverse :: splitOnCharAux sep cs []
    else splitOnCharAux sep cs (c :: acc)

/-- Python `s.split(c)` for a single-character separator `c`. -/
def splitOnChar (sep : Char) (s : List Char) : List (List Char) :=
  splitOnCharAux sep s []

/-- Accumulator loop of `parseInt`: consume decimal digits, failing on any
other character (as Python `int` raises `ValueError`). -/
def parseDigitsAux : List Char → Nat → Option Nat
  | [], acc => some acc
  | c :: cs, acc =>
    if c.isDigit then parseDigitsAux cs (acc * 10 + (c.toNat - 48))
    else none

/-- Python `int(s)`: an optional minus sign followed by at least one decimal
digit; everything else raises `ValueError`, i.e. returns `none`. -/
def parseInt (s : List Char) : Option Int :=
  match s with
  | [] => none
  | '-' :: rest =>
    match rest, parseDigitsAux rest 0 with
    | [], _ => none
    | _, some n => some (-(n : Int))
    | _, none => none
  | _ => (parseDigitsAux s 0).map (fun n => (n : Int))

/-- Python `s.startswith(p)`, on character lists. -/
def startsWithList : List Char → List Char → Bool
  | [], _ => true
  | _ :: _, [] => false
  | p :: ps, c :: cs => p == c && startsWithList ps cs

/-- Loop of `countOccur`: the number of non-overlapping occurrences of `pat`
in the scanned list, as counted by `numpy.char.count` / `str.count`. -/
def countOccurAux (pat : List Char) : List Char → Nat
  | [] => 0
  | c :: cs =>
    if startsWithList pat (c :: cs) then
      1 + countOccurAux pat (List.drop (pat.length - 1) cs)
    else countOccurAux pat cs
termination_by s => s.length
decreasing_by
  · simp only [List.length_drop, List.length_cons]
    omega
  · simp only [List.length_cons]
    omega

/-- Python `s.count(pat)` restricted to what `load_qinfo` needs:
non-overlapping occurrence count of a pattern. -/
def countOccur (pat : List Char) (s : List Char) : Nat := countOccurAux pat s

/-- Floor of a rational, written so that it evaluates by kernel reduction
(the denominator is positive, so integer division `Int.ediv` floors). -/
def qfloor (q : ℚ) : ℤ := q.num / q.den

/-- Round a rational to the nearest integer with ties to even: the rounding
mode of Python `round` and `numpy.round`.  The fractional part `r` of `q`
satisfies `r < 1/2` iff `2 * r.num < r.den`. -/
def roundHalfEven (q : ℚ) : ℤ :=
  let f : ℤ := qfloor q
  let r : ℚ := q - (f : ℚ)
  if 2 * r.num < (r.den : ℤ) then f
  else if (r.den : ℤ) < 2 * r.num then f + 1
  else if f % 2 = 0 then f else f + 1

/-- Python `round(q, n)` / `numpy.round(q, n)`: round half to even at `n`
decimal places. -/
def roundDec (n : ℕ) (q : ℚ) : ℚ := ((roundHalfEven (q * 10 ^ n) : ℤ) : ℚ) / 10 ^ n

/-- `hhmmss2hours` from `prodjobs.py`: split on `':'` into exactly three
fields `hh`, `mm`, `ss` (tuple unpacking raises for any other field count),
parse each as an integer, and return `hh + mm/60 + ss/3600` hours.  `none`
models the fatal `ValueError`. -/
def hhmmss2hours (s : String) : Option ℚ :=
  match splitOnChar ':' s.data with
  | [hh, mm, ss] =>
    match parseInt hh, parseInt mm, parseInt ss with
    | some h, some m, some sec => some ((h : ℚ) + (m : ℚ) / 60 + (sec : ℚ) / 3600)
    | _, _, _ => none
  | _ => none

/-- The `GPU` column of `load_qinfo`:
`np.array(np.char.count(qinfo['CONSTRAINTS'], 'gpu') > 0, dtype=int)`. -/
def gpuFlag (constraints : String) : Nat :=
  if 0 < countOccur "gpu".data constraints.data then 1 else 0

/-- The `STATE` normalization of `load_qinfo`: any state with Python prefix
`'CANCELLED by'` is rewritten to the literal `'CANCELLED'`. -/
def normState (state : String) : String :=
  if startsWithList "CANCELLED by".data state.data then "CANCELLED" else state

/-- One accounting record as returned by the queue-info provider
(`queue_info_from_qids` with the fixed column list), already tagged with the
`JOBDESC` category that `load_qinfo` attaches before stacking. -/
structure RawJob where
  jobid : Int
  jobname : String
  partition : String
  constraints : String
  nnodes : Int
  submit : String
  eligible : String
  start : String
  end_ : String
  elapsed : String
  state : String
  exitcode : String
  jobdesc : String
deriving DecidableEq

/-- One row of the aggregated `qinfo` table produced by `load_qinfo`: the
provider columns (with `STATE` normalized) plus the derived `NODE_HOURS`
and `GPU` columns. -/
structure QJob where
  jobid : Int
  jobname : String
  partition : String
  constraints : String
  nnodes : Int
  submit : String
  eligible : String
  start : String
  end_ : String
  elapsed : String
  state : String
  exitcode : String
  jobdesc : String
  node_hours : ℚ
  gpu : Nat
deriving DecidableEq

/-- One row of the summary table of `summarize_qinfo`: columns
`JOBDESC, CPUGPU, NODE_HOURS, PERCENT, COMPLETED, TIMEOUT, FAILED,
CANCELLED, NODE_FAIL`. -/
structure SummaryRow where
  jobdesc : String
  cpugpu : String
  node_hours : ℚ
  percent : ℚ
  completed : Nat
  timeout : Nat
  failed : Nat
  cancelled : Nat
  node_fail : Nat
deriving DecidableEq

/-- Derivation phase of `load_qinfo` on one record: `NODE_HOURS` is the
elapsed time in hours times `NNODES`, rounded to 4 decimals; `GPU` flags a
`'gpu'` substring of `CONSTRAINTS`; `STATE` is normalized.  A malformed
elapsed string is the fatal parse error `none`. -/
def deriveRow (r : RawJob) : Option QJob :=
  match hhmmss2hours r.elapsed with
  | none => none
  | some hours =>
    some ⟨r.jobid, r.jobname, r.partition, r.constraints, r.nnodes, r.submit,
      r.eligible, r.start, r.end_, r.elapsed, normState r.state, r.exitcode,
      r.jobdesc, roundDec 4 (hours * (r.nnodes : ℚ)), gpuFlag r.constraints⟩

/-- Derivation phase of `load_qinfo` on the stacked table: every record is
derived, and a single malformed elapsed string aborts the whole aggregation
(no table is returned). -/
def deriveQinfo : List RawJob → Option (List QJob)
  | [] => some []
  | r :: rs =>
    match deriveRow r, deriveQinfo rs with
    | some j, some js => some (j :: js)
    | _, _ => none

/-- Row selection `qinfo[qinfo['JOBDESC'] == jobdesc]`. -/
def selectJobdesc (qinfo : List QJob) (jd : String) : List QJob :=
  qinfo.filter (fun j => j.jobdesc == jd)

/-- State count `np.count_nonzero(jobdesc_qinfo['STATE'] == state)`. -/
def stateCount (rows : List QJob) (st : String) : Nat :=
  (rows.filter (fun j => j.state == st)).length

/-- Grand total `tot_hours = np.sum(qinfo['NODE_HOURS'])`, over every row of
the table whatever its category. -/
def totNodeHours (qinfo : List QJob) : ℚ :=
  (qinfo.map QJob.node_hours).sum

/-- The five outcome states counted by `summarize_qinfo`, in column order. -/
def jobstates : List String := ["COMPLETED", "TIMEOUT", "FAILED", "CANCELLED", "NODE_FAIL"]

/-- The fixed ordered category whitelist of `summarize_qinfo`. -/
def whitelist : List String :=
  ["linkcal", "nightlybias", "ccdcalib", "arc", "psfnight", "flat", "nightlyflat",
   "tilenight", "cumulative", "zpix"]

/-- Loop body of `summarize_qinfo` for one category: select the category's
rows; an empty selection is the fatal `IndexError` of
`jobdesc_qinfo['GPU'][0]` (`none`); otherwise the row holds the resource
class of the first selected row, node-hours rounded to 1 decimal, the
percentage of `tot_hours` rounded to 1 decimal, and the five state counts. -/
def summarizeRow (tot_hours : ℚ) (qinfo : List QJob) (jd : String) : Option SummaryRow :=
  let sel := selectJobdesc qinfo jd
  match sel.head? with
  | none => none
  | some first =>
    let node_hours := roundDec 1 ((sel.map QJob.node_hours).sum)
    let percent := roundDec 1 (100 * node_hours / tot_hours)
    some ⟨jd, if first.gpu ≠ 0 then "gpu" else "cpu", node_hours, percent,
      stateCount sel "COMPLETED", stateCount sel "TIMEOUT", stateCount sel "FAILED",
      stateCount sel "CANCELLED", stateCount sel "NODE_FAIL"⟩

/-- Loop of `summarize_qinfo` over a category list: one summary row per
category; a fatal error for any category aborts the whole summary. -/
def summarizeAux (tot_hours : ℚ) (qinfo : List QJob) : List String → Option (List SummaryRow)
  | [] => some []
  | c :: cs =>
    match summarizeRow tot_hours qinfo c, summarizeAux tot_hours qinfo cs with
    | some r, some rs => some (r :: rs)
    | _, _ => none

/-- `summarize_qinfo` from `prodjobs.py`: reduce the aggregated table to one
row per whitelisted category, in whitelist order, with percentages taken of
the grand total over all rows. -/
def summarize_qinfo (qinfo : List QJob) : Option (List SummaryRow) :=
  summarizeAux (totNodeHours qinfo) qinfo whitelist

/-- One row of a processing table: the `JOBDESC` category and the
`ALL_QIDS` list of queue job ids submitted for the task. -/
structure PTRow where
  jobdesc : String
  all_qids : List Int
deriving DecidableEq

/-- A processing table, as loaded by `load_proctables`. -/
abbrev ProcTable := List PTRow

/-- Lexicographic comparison of character lists, the order `numpy.unique`
sorts strings by. -/
def lexLt : List Char → List Char → Bool
  | [], [] => false
  | [], _ :: _ => true
  | _ :: _, [] => false
  | a :: as, b :: bs => if a < b then true else if b < a then false else lexLt as bs

/-- Insert a string into a sorted list, keeping it sorted. -/
def insertSortedStr (x : String) : List String → List String
  | [] => [x]
  | y :: ys => if lexLt x.data y.data then x :: y :: ys else y :: insertSortedStr x ys

/-- `np.unique` on a list of strings: the distinct values in sorted order. -/
def uniqueSorted (l : List String) : List String :=
  l.dedup.foldr insertSortedStr []

/-- Concatenation `np.concatenate(ptab['ALL_QIDS'][ptab['JOBDESC'] == jd])`
of the qid lists of all rows of one category. -/
def qidsFor (pt : ProcTable) (jd : String) : List Int :=
  ((pt.filter (fun row => row.jobdesc == jd)).map PTRow.all_qids).flatten

/-- The dict update of `load_qinfo`: start a new key with `qids`, or
`extend` the existing list of the key. -/
def addQids (m : List (String × List Int)) (jd : String) (qids : List Int) :
    List (String × List Int) :=
  if m.any (fun kv => kv.1 == jd) then
    m.map (fun kv => if kv.1 == jd then (kv.1, kv.2 ++ qids) else kv)
  else m ++ [(jd, qids)]

/-- Inner loop of `load_qinfo` over one processing table: for each distinct
category of the table (in `np.unique` order), append that category's
concatenated qids to the running mapping. -/
def collectPtab (m : List (String × List Int)) (pt : ProcTable) :
    List (String × List Int) :=
  (uniqueSorted (pt.map PTRow.jobdesc)).foldl (fun acc jd => addQids acc jd (qidsFor pt jd)) m

/-- The `jobdesc_qids` mapping of `load_qinfo` built from the processing
tables alone, before the healpix assignment. -/
def collectJobdescQids (pts : List ProcTable) : List (String × List Int) :=
  pts.foldl collectPtab []

/-- Strip the final extension of a path component, as
`os.path.splitext(...)[0]` does for ordinary names (the special case of a
name whose only dot is the leading one is not modelled; healpix log names
are `zpix-<qid>.log`). -/
def dropExt (s : List Char) : List Char :=
  if s.contains '.' then List.intercalate ['.'] ((splitOnChar '.' s).dropLast) else s

/-- Qid parse of `get_zpix_qids` for one log filename:
`int(os.path.splitext(os.path.basename(filename))[0].split('-')[-1])`,
with `none` for the logged-and-skipped `ValueError`. -/
def parseZpixQid (filename : String) : Option Int :=
  let base := (splitOnChar '/' filename.data).getLastD []
  parseInt ((splitOnChar '-' (dropExt base)).getLastD [])

/-- `get_zpix_qids` from `prodjobs.py`, over the sorted list of matching log
filenames that the glob of the production directory returns: parse a qid out
of each filename, skipping (not failing on) unparseable ones. -/
def get_zpix_qids (zpixlogs : List String) : List Int :=
  zpixlogs.filterMap parseZpixQid

/-- Python dict assignment `m[k] = v`: overwrite the value of an existing
key in place, else append a new key. -/
def setAssoc (m : List (String × List Int)) (k : String) (v : List Int) :
    List (String × List Int) :=
  if m.any (fun kv => kv.1 == k) then
    m.map (fun kv => if kv.1 == k then (kv.1, v) else kv)
  else m ++ [(k, v)]

/-- Python dict lookup `m[k]` as an option. -/
def lookupAssoc (m : List (String × List Int)) (k : String) : Option (List Int) :=
  (m.find? (fun kv => kv.1 == k)).map Prod.snd

/-- The category-to-qids mapping that `load_qinfo` queries the provider
with: the proctable collection followed by
`jobdesc_qids['zpix'] = get_zpix_qids(specprod)`. -/
def buildJobdescQids (pts : List ProcTable) (zpixlogs : List String) :
    List (String × List Int) :=
  setAssoc (collectJobdescQids pts) "zpix" (get_zpix_qids zpixlogs)

/-- Helper building an accounting record whose fields beyond the ones under
test are blank. -/
def mkRaw (constraints : String) (nnodes : Int) (elapsed state jd : String) : RawJob :=
  ⟨0, "", "", constraints, nnodes, "", "", "", "", elapsed, state, "0:0", jd⟩

/-- Helper building an aggregated-table row whose fields beyond the ones
under test are blank. -/
def mkQJ (nnodes : Int) (elapsed state jd : String) (nh : ℚ) (gpu : Nat) : QJob :=
  ⟨0, "", "", "", nnodes, "", "", "", "", elapsed, state, "0:0", jd, nh, gpu⟩

/-- The queue-info table of the spec's end-to-end scenario: exactly two
`arc` rows, `(nnodes=2, elapsed=01:00:00, COMPLETED)` and
`(nnodes=2, elapsed=00:30:00, FAILED)`, and no other category. -/
def c1_raws : List RawJob :=
  [mkRaw "" 2 "01:00:00" "COMPLETED" "arc", mkRaw "" 2 "00:30:00" "FAILED" "arc"]

/-- The aggregated form of `c1_raws`: node-hours `2.0` and `1.0`. -/
def c1_table : List QJob :=
  [mkQJ 2 "01:00:00" "COMPLETED" "arc" 2 0, mkQJ 2 "00:30:00" "FAILED" "arc" 1 0]

/-- A table with a single `arc` row, so that every other whitelisted
category is absent. -/
def c2_table : List QJob := [mkQJ 1 "01:00:00" "COMPLETED" "arc" 1 0]

/-- A table covering all ten whitelisted categories (one completed one-hour
one-node job each) plus one row of a category outside the whitelist. -/
def c3_table : List QJob :=
  (whitelist.map (fun c => mkQJ 1 "01:00:00" "COMPLETED" c 1 0)) ++
    [mkQJ 1 "01:00:00" "COMPLETED" "unlistedcat" 10 0]

/-- Records whose states exercise the cancellation normalization: one
`CANCELLED by 12345`, one plain `CANCELLED`, one `COMPLETED`. -/
def c4_raws : List RawJob :=
  [mkRaw "" 1 "01:00:00" "CANCELLED by 12345" "arc",
   mkRaw "" 1 "01:00:00" "CANCELLED" "arc",
   mkRaw "" 1 "01:00:00" "COMPLETED" "arc"]

/-- The aggregated form of `c4_raws`. -/
def c4_table : List QJob :=
  [mkQJ 1 "01:00:00" "CANCELLED" "arc" 1 0,
   mkQJ 1 "01:00:00" "CANCELLED" "arc" 1 0,
   mkQJ 1 "01:00:00" "COMPLETED" "arc" 1 0]

/-- Records whose constraints exercise the GPU classification. -/
def c5_raws : List RawJob :=
  [mkRaw "gpu&hbm80g" 1 "01:00:00" "COMPLETED" "arc",
   mkRaw "cpu" 1 "01:00:00" "COMPLETED" "arc"]

/-- The aggregated form of `c5_raws`, with GPU flags `1` and `0`. -/
def c5_table : List QJob :=
  [⟨0, "", "", "gpu&hbm80g", 1, "", "", "", "", "01:00:00", "COMPLETED", "0:0", "arc", 1, 1⟩,
   ⟨0, "", "", "cpu", 1, "", "", "", "", "01:00:00", "COMPLETED", "0:0", "arc", 1, 0⟩]

/-- A table containing one record with the malformed elapsed string
`"1:30"` (two colon-separated fields instead of three). -/
def c6_raws : List RawJob :=
  [mkRaw "" 1 "01:00:00" "COMPLETED" "arc", mkRaw "" 1 "1:30" "COMPLETED" "arc"]

/-- A table covering all ten whitelisted categories, listed in an order
different from the whitelist order. -/
def c8_table : List QJob :=
  [mkQJ 1 "01:00:00" "COMPLETED" "zpix" 1 0,
   mkQJ 1 "01:00:00" "COMPLETED" "cumulative" 1 0,
   mkQJ 1 "01:00:00" "COMPLETED" "tilenight" 1 0,
   mkQJ 1 "01:00:00" "COMPLETED" "nightlyflat" 1 0,
   mkQJ 1 "01:00:00" "COMPLETED" "flat" 1 0,
   mkQJ 1 "01:00:00" "COMPLETED" "psfnight" 1 0,
   mkQJ 1 "01:00:00" "COMPLETED" "arc" 1 0,
   mkQJ 1 "01:00:00" "COMPLETED" "ccdcalib" 1 0,
   mkQJ 1 "01:00:00" "COMPLETED" "nightlybias" 1 0,
   mkQJ 1 "01:00:00" "COMPLETED" "linkcal" 1 0]

/-- The summary of `c8_table`: one row per category in whitelist order,
each with 10 percent of the total. -/
def c8_rows : List SummaryRow :=
  whitelist.map (fun c => ⟨c, "cpu", 1, 10, 1, 0, 0, 0, 0⟩)

/-- A table covering all ten whitelisted categories, every row inside the
whitelist, with total node-hours 10. -/
def c9_table : List QJob :=
  whitelist.map (fun c => mkQJ 1 "01:00:00" "COMPLETED" c 1 0)

/-- The summary of `c9_table`. -/
def c9_rows : List SummaryRow :=
  whitelist.map (fun c => ⟨c, "cpu", 1, 10, 1, 0, 0, 0, 0⟩)

/-- Processing tables for the healpix-replacement scenario: a table that
does carry `zpix` rows with qids `[11, 12]` next to a `tilenight` row. -/
def c10_ptables : List ProcTable :=
  [[⟨"zpix", [11, 12]⟩, ⟨"tilenight", [21]⟩]]

/-- Healpix log filenames whose parsed qids `[31, 32]` differ from the
proctable `zpix` qids. -/
def c10_logs : List String :=
  ["/prod/run/scripts/healpix/main/dark/91/zpix-main-dark-91-31.log",
   "/prod/run/scripts/healpix/main/dark/92/zpix-main-dark-92-32.log"]

/-! ## Helper lemmas -/

/-- The fractional-part test used by `roundHalfEven`, stated on rationals. -/
theorem two_mul_num_lt_den_iff (r : ℚ) : (2 * r.num < (r.den : ℤ)) ↔ r < 1/2 := by
  have hden : (0:ℚ) < (r.den : ℚ) := by exact_mod_cast r.pos
  constructor
  · intro h
    rw [← Rat.num_div_den r, div_lt_div_iff hden (by norm_num : (0:ℚ) < 2)]
    have h2 : ((2 * r.num : ℤ) : ℚ) < ((r.den : ℤ) : ℚ) := by exact_mod_cast h
    push_cast at h2 ⊢
    linarith
  · intro h
    rw [← Rat.num_div_den r, div_lt_div_iff hden (by norm_num : (0:ℚ) < 2)] at h
    have h2 : ((2 * r.num : ℤ) : ℚ) < ((r.den : ℤ) : ℚ) := by push_cast; linarith
    exact_mod_cast h2

/-- Symmetric form of the fractional-part test of `roundHalfEven`. -/
theorem den_lt_two_mul_num_iff (r : ℚ) : ((r.den : ℤ) < 2 * r.num) ↔ 1/2 < r := by
  have hden : (0:ℚ) < (r.den : ℚ) := by exact_mod_cast r.pos
  constructor
  · intro h
    rw [← Rat.num_div_den r, div_lt_div_iff (by norm_num : (0:ℚ) < 2) hden]
    have h2 : ((r.den : ℤ) : ℚ) < ((2 * r.num : ℤ) : ℚ) := by exact_mod_cast h
    push_cast at h2 ⊢
    linarith
  · intro h
    rw [← Rat.num_div_den r, div_lt_div_iff (by norm_num : (0:ℚ) < 2) hden] at h
    have h2 : ((r.den : ℤ) : ℚ) < ((2 * r.num : ℤ) : ℚ) := by push_cast; linarith
    exact_mod_cast h2

/-- `qfloor` agrees with the mathematical floor. -/
theorem qfloor_eq_floor (q : ℚ) : qfloor q = ⌊q⌋ := Rat.floor_def.symm

/-- Rounding to the nearest integer moves a value by at most one half. -/
theorem abs_roundHalfEven_sub (q : ℚ) : |((roundHalfEven q : ℤ) : ℚ) - q| ≤ 1/2 := by
  have h1 : (⌊q⌋ : ℚ) ≤ q := Int.floor_le q
  have h2 : q < (⌊q⌋ : ℚ) + 1 := Int.lt_floor_add_one q
  simp only [roundHalfEven, qfloor_eq_floor]
  split_ifs with ha hb hc
  · rw [two_mul_num_lt_den_iff] at ha
    rw [abs_le]
    constructor <;> linarith
  · rw [two_mul_num_lt_den_iff, not_lt] at ha
    rw [den_lt_two_mul_num_iff] at hb
    rw [abs_le]
    constructor <;> push_cast <;> linarith
  · rw [two_mul_num_lt_den_iff, not_lt] at ha
    rw [den_lt_two_mul_num_iff, not_lt] at hb
    rw [abs_le]
    constructor <;> linarith
  · rw [two_mul_num_lt_den_iff, not_lt] at ha
    rw [den_lt_two_mul_num_iff, not_lt] at hb
    rw [abs_le]
    constructor <;> push_cast <;> linarith

/-- Rounding at `n` decimals moves a value by at most half a unit in the
last place. -/
theorem abs_roundDec_sub (n : ℕ) (q : ℚ) : |roundDec n q - q| ≤ 1 / (2 * 10 ^ n) := by
  have hpow : (0:ℚ) < 10 ^ n := by positivity
  have h := abs_roundHalfEven_sub (q * 10 ^ n)
  have key : roundDec n q - q = (((roundHalfEven (q * 10 ^ n) : ℤ) : ℚ) - q * 10 ^ n) / 10 ^ n := by
    rw [roundDec]
    field_simp
    ring
  rw [key, abs_div, abs_of_pos hpow, div_le_div_iff hpow (by positivity)]
  calc |((roundHalfEven (q * 10 ^ n) : ℤ) : ℚ) - q * 10 ^ n| * (2 * 10 ^ n)
      ≤ (1/2) * (2 * 10 ^ n) := by
        apply mul_le_mul_of_nonneg_right h
        positivity
    _ = 1 * 10 ^ n := by ring

/-- Boolean `startsWithList` decides the Python notion of string prefix. -/
theorem startsWithList_iff (p s : List Char) :
    startsWithList p s = true ↔ ∃ t, s = p ++ t := by
  induction p generalizing s with
  | nil => simp [startsWithList]
  | cons a ps ih =>
    cases s with
    | nil => simp [startsWithList]
    | cons c cs =>
      simp only [startsWithList, Bool.and_eq_true, beq_iff_eq, ih, List.cons_append,
        List.cons.injEq]
      constructor
      · rintro ⟨rfl, t, rfl⟩
        exact ⟨t, rfl, rfl⟩
      · rintro ⟨t, rfl, rfl⟩
        exact ⟨rfl, t, rfl⟩

/-- A positive non-overlapping occurrence count certifies a substring
occurrence. -/
theorem countOccurAux_pos_imp (pat : List Char) (s : List Char)
    (h : 0 < countOccurAux pat s) : ∃ l r, s = l ++ pat ++ r := by
  induction s with
  | nil => simp [countOccurAux] at h
  | cons c cs ih =>
    rw [countOccurAux] at h
    by_cases hsw : startsWithList pat (c :: cs) = true
    · obtain ⟨t, ht⟩ := (startsWithList_iff pat (c :: cs)).mp hsw
      exact ⟨[], t, by simp [ht]⟩
    · rw [if_neg hsw] at h
      obtain ⟨l, r, rfl⟩ := ih h
      exact ⟨c :: l, r, rfl⟩

/-- A substring occurrence makes the non-overlapping occurrence count
positive. -/
theorem countOccurAux_pos_of_split (pat : List Char) (hp : pat ≠ []) (l r : List Char) :
    0 < countOccurAux pat (l ++ pat ++ r) := by
  induction l with
  | nil =>
    cases pat with
    | nil => exact absurd rfl hp
    | cons p ps =>
      have hsw : startsWithList (p :: ps) ((p :: ps) ++ r) = true :=
        (startsWithList_iff _ _).mpr ⟨r, rfl⟩
      rw [List.nil_append, List.cons_append, countOccurAux, ← List.cons_append, if_pos hsw]
      omega
  | cons c l' ih =>
    rw [List.cons_append, List.cons_append, countOccurAux]
    split
    · omega
    · exact ih

/-- The `numpy.char.count(...) > 0` test of `load_qinfo` holds exactly when
the pattern occurs as a substring. -/
theorem countOccur_pos_iff (pat : List Char) (hp : pat ≠ []) (s : List Char) :
    0 < countOccur pat s ↔ ∃ l r, s = l ++ pat ++ r := by
  constructor
  · exact countOccurAux_pos_imp pat s
  · rintro ⟨l, r, rfl⟩
    exact countOccurAux_pos_of_split pat hp l r

/-- `gpuFlag` is `1` exactly on constraints containing `"gpu"`. -/
theorem gpuFlag_eq_one_iff (s : String) :
    gpuFlag s = 1 ↔ ∃ l r, s.data = l ++ "gpu".data ++ r := by
  rw [gpuFlag, ← countOccur_pos_iff "gpu".data (by decide) s.data]
  split
  · simp_all
  · simp_all

/-- `gpuFlag` is `0` exactly on constraints not containing `"gpu"`. -/
theorem gpuFlag_eq_zero_iff (s : String) :
    gpuFlag s = 0 ↔ ¬ ∃ l r, s.data = l ++ "gpu".data ++ r := by
  rw [gpuFlag, ← countOccur_pos_iff "gpu".data (by decide) s.data]
  split
  · simp_all
  · simp_all

/-- Evaluation of `hhmmss2hours` on a well-formed field split. -/
theorem hhmmss2hours_fields (s : String) (a b c : List Char) (h m sec : ℤ)
    (hsplit : splitOnChar ':' s.data = [a, b, c])
    (ha : parseInt a = some h) (hb : parseInt b = some m) (hc : parseInt c = some sec) :
    hhmmss2hours s = some ((h : ℚ) + (m : ℚ) / 60 + (sec : ℚ) / 3600) := by
  rw [hhmmss2hours, hsplit]
  simp only [ha, hb, hc]

/-- A split with any other field count is the fatal parse error. -/
theorem hhmmss2hours_none_of_length (s : String)
    (h : (splitOnChar ':' s.data).length ≠ 3) : hhmmss2hours s = none := by
  rcases hs : splitOnChar ':' s.data with _ | ⟨a, _ | ⟨b, _ | ⟨c, _ | ⟨d, tl⟩⟩⟩⟩
  · rw [hhmmss2hours, hs]
  · rw [hhmmss2hours, hs]
  · rw [hhmmss2hours, hs]
  · rw [hs] at h
    simp at h
  · rw [hhmmss2hours, hs]

/-- `deriveRow` fails exactly on the fatal elapsed parse error. -/
theorem deriveRow_eq_none_iff (r : RawJob) :
    deriveRow r = none ↔ hhmmss2hours r.elapsed = none := by
  rw [deriveRow]
  cases hhmmss2hours r.elapsed <;> simp

/-- Field relations between an input record and its derived row. -/
theorem deriveRow_some (r : RawJob) (j : QJob) (h : deriveRow r = some j) :
    j.state = normState r.state ∧ j.gpu = gpuFlag r.constraints ∧
      j.constraints = r.constraints ∧ j.jobdesc = r.jobdesc ∧
      ∃ hours, hhmmss2hours r.elapsed = some hours ∧
        j.node_hours = roundDec 4 (hours * (r.nnodes : ℚ)) := by
  rw [deriveRow] at h
  cases hh : hhmmss2hours r.elapsed with
  | none => rw [hh] at h; exact absurd h (by simp)
  | some hours =>
    rw [hh] at h
    cases h
    exact ⟨rfl, rfl, rfl, rfl, hours, rfl, rfl⟩

/-- The aggregation relates records and derived rows positionally. -/
theorem deriveQinfo_forall₂ (raws : List RawJob) (q : List QJob)
    (h : deriveQinfo raws = some q) :
    List.Forall₂ (fun r j => deriveRow r = some j) raws q := by
  induction raws generalizing q with
  | nil =>
    rw [deriveQinfo] at h
    cases h
    exact List.Forall₂.nil
  | cons r rs ih =>
    rw [deriveQinfo] at h
    cases hr : deriveRow r with
    | none => rw [hr] at h; exact absurd h (by simp)
    | some j =>
      cases hrs : deriveQinfo rs with
      | none => rw [hr, hrs] at h; exact absurd h (by simp)
      | some js =>
        rw [hr, hrs] at h
        cases h
        exact List.Forall₂.cons hr (ih js hrs)

/-- One fatal record aborts the whole aggregation. -/
theorem deriveQinfo_none_of_mem (raws : List RawJob) (r : RawJob)
    (hmem : r ∈ raws) (hr : deriveRow r = none) : deriveQinfo raws = none := by
  induction raws with
  | nil => cases hmem
  | cons x xs ih =>
    rw [deriveQinfo]
    rcases List.mem_cons.mp hmem with rfl | hmem'
    · rw [hr]
    · rw [ih hmem']
      cases deriveRow x <;> rfl

/-- Empty category selection, phrased on rows. -/
theorem selectJobdesc_eq_nil_iff (q : List QJob) (c : String) :
    selectJobdesc q c = [] ↔ ∀ j ∈ q, j.jobdesc ≠ c := by
  simp [selectJobdesc, List.filter_eq_nil_iff]

/-- `summarizeRow` fails exactly on an empty category selection. -/
theorem summarizeRow_eq_none_iff (tot : ℚ) (q : List QJob) (c : String) :
    summarizeRow tot q c = none ↔ selectJobdesc q c = [] := by
  rw [summarizeRow]
  cases h : (selectJobdesc q c).head? with
  | none =>
    simp only [h]
    simpa using List.head?_eq_none_iff.mp h
  | some first =>
    simp only [h]
    constructor
    · intro hc
      exact absurd hc (by simp)
    · intro hnil
      rw [hnil] at h
      exact absurd h (by simp)

/-- Field relations of a successfully computed summary row. -/
theorem summarizeRow_some (tot : ℚ) (q : List QJob) (c : String) (row : SummaryRow)
    (h : summarizeRow tot q c = some row) :
    row.jobdesc = c ∧
      row.node_hours = roundDec 1 (((selectJobdesc q c).map QJob.node_hours).sum) ∧
      row.percent = roundDec 1 (100 * row.node_hours / tot) := by
  rw [summarizeRow] at h
  cases hh : (selectJobdesc q c).head? with
  | none =>
    rw [hh] at h
    exact absurd h (by simp)
  | some first =>
    rw [hh] at h
    cases h
    exact ⟨rfl, rfl, rfl⟩

/-- The summary loop relates categories and rows positionally. -/
theorem summarizeAux_forall₂ (tot : ℚ) (q : List QJob) (cats : List String)
    (rows : List SummaryRow) (h : summarizeAux tot q cats = some rows) :
    List.Forall₂ (fun c row => summarizeRow tot q c = some row) cats rows := by
  induction cats generalizing rows with
  | nil =>
    rw [summarizeAux] at h
    cases h
    exact List.Forall₂.nil
  | cons c cs ih =>
    rw [summarizeAux] at h
    cases hc : summarizeRow tot q c with
    | none => rw [hc] at h; exact absurd h (by simp)
    | some row =>
      cases hcs : summarizeAux tot q cs with
      | none => rw [hc, hcs] at h; exact absurd h (by simp)
      | some rest =>
        rw [hc, hcs] at h
        cases h
        exact List.Forall₂.cons hc (ih rest hcs)

/-- One fatal category aborts the whole summary. -/
theorem summarizeAux_none_of_mem (tot : ℚ) (q : List QJob) (cats : List String)
    (c : String) (hmem : c ∈ cats) (hc : summarizeRow tot q c = none) :
    summarizeAux tot q cats = none := by
  induction cats with
  | nil => cases hmem
  | cons x xs ih =>
    rw [summarizeAux]
    rcases List.mem_cons.mp hmem with rfl | hmem'
    · rw [hc]
    · rw [ih hmem']
      cases summarizeRow tot q x <;> rfl

/-- The summary loop succeeds when every category's row does. -/
theorem summarizeAux_some_of_forall (tot : ℚ) (q : List QJob) (cats : List String)
    (h : ∀ c ∈ cats, summarizeRow tot q c ≠ none) :
    ∃ rows, summarizeAux tot q cats = some rows := by
  induction cats with
  | nil => exact ⟨[], rfl⟩
  | cons c cs ih =>
    obtain ⟨rest, hrest⟩ := ih (fun x hx => h x (List.mem_cons_of_mem c hx))
    cases hc : summarizeRow tot q c with
    | none => exact absurd hc (h c (List.mem_cons_self c cs))
    | some row =>
      refine ⟨row :: rest, ?_⟩
      rw [summarizeAux, hc, hrest]

/-- Splitting the grand total at one category: the category's node-hours
plus the node-hours of every other row. -/
theorem sum_nh_filter_split (q : List QJob) (c : String) :
    ((selectJobdesc q c).map QJob.node_hours).sum +
      ((q.filter (fun j => !(j.jobdesc == c))).map QJob.node_hours).sum = totNodeHours q := by
  induction q with
  | nil => simp [selectJobdesc, totNodeHours]
  | cons j js ih =>
    by_cases hj : j.jobdesc = c
    · simp only [selectJobdesc, totNodeHours, List.filter_cons, hj] at ih ⊢
      simp only [beq_self_eq_true, if_pos, Bool.not_true, if_neg, List.map_cons, List.sum_cons]
      simp only [reduceIte, Bool.false_eq_true, List.map_cons, List.sum_cons]
      linarith [ih]
    · have hb : (j.jobdesc == c) = false := beq_eq_false_iff_ne.mpr hj
      simp only [selectJobdesc, totNodeHours, List.filter_cons, hb] at ih ⊢
      simp only [Bool.not_false, Bool.false_eq_true, reduceIte, List.map_cons, List.sum_cons]
      linarith [ih]

/-- Removing the rows of a different category does not change a category's
selection. -/
theorem selectJobdesc_filter_ne (q : List QJob) (c d : String) (hne : d ≠ c) :
    selectJobdesc (q.filter (fun j => !(j.jobdesc == c))) d = selectJobdesc q d := by
  rw [selectJobdesc, selectJobdesc, List.filter_filter]
  apply List.filter_congr
  intro j _
  by_cases hj : j.jobdesc = d
  · have h1 : (j.jobdesc == d) = true := beq_iff_eq.mpr hj
    have h2 : (j.jobdesc == c) = false := beq_eq_false_iff_ne.mpr (by rw [hj]; exact hne)
    rw [h1, h2]
    rfl
  · have h1 : (j.jobdesc == d) = false := beq_eq_false_iff_ne.mpr hj
    rw [h1]
    simp

/-- When every row's category lies in a duplicate-free category list, the
per-category node-hour sums add up to the grand total. -/
theorem catSum_partition (cats : List String) (q : List QJob) (hnd : cats.Nodup)
    (hall : ∀ j ∈ q, j.jobdesc ∈ cats) :
    (cats.map (fun c => ((selectJobdesc q c).map QJob.node_hours).sum)).sum
      = totNodeHours q := by
  induction cats generalizing q with
  | nil =>
    cases q with
    | nil => simp [totNodeHours]
    | cons j js => exact absurd (hall j (List.mem_cons_self j js)) (List.not_mem_nil _)
  | cons c cs ih =>
    rw [List.map_cons, List.sum_cons]
    have hrw : cs.map (fun d => ((selectJobdesc q d).map QJob.node_hours).sum)
        = cs.map (fun d => ((selectJobdesc (q.filter (fun j => !(j.jobdesc == c))) d).map
            QJob.node_hours).sum) := by
      apply List.map_congr_left
      intro d hd
      rw [selectJobdesc_filter_ne q c d]
      intro hdc
      rw [hdc] at hd
      exact (List.nodup_cons.mp hnd).1 hd
    rw [hrw, ih (q.filter (fun j => !(j.jobdesc == c))) (List.nodup_cons.mp hnd).2]
    · exact sum_nh_filter_split q c
    · intro j hj
      obtain ⟨hjq, hjc⟩ := List.mem_filter.mp hj
      have := hall j hjq
      rcases List.mem_cons.mp this with heq | hmem
      · rw [heq] at hjc
        simp at hjc
      · exact hmem

/-- One summary row's rounded percentage is within `1/20 + 5/tot` of the
exact percentage of its category. -/
theorem percent_close (tot : ℚ) (htot : 0 < tot) (q : List QJob) (c : String)
    (row : SummaryRow) (h : summarizeRow tot q c = some row) :
    |row.percent - 100 * (((selectJobdesc q c).map QJob.node_hours).sum) / tot|
      ≤ 1/20 + 5/tot := by
  obtain ⟨-, hnh, hpct⟩ := summarizeRow_some tot q c row h
  have h1 : |row.percent - 100 * row.node_hours / tot| ≤ 1/20 := by
    rw [hpct]
    calc |roundDec 1 (100 * row.node_hours / tot) - 100 * row.node_hours / tot|
        ≤ 1/(2 * 10 ^ 1) := abs_roundDec_sub 1 _
      _ = 1/20 := by norm_num
  have hnhS : |row.node_hours - ((selectJobdesc q c).map QJob.node_hours).sum| ≤ 1/20 := by
    rw [hnh]
    calc |roundDec 1 (((selectJobdesc q c).map QJob.node_hours).sum)
          - ((selectJobdesc q c).map QJob.node_hours).sum|
        ≤ 1/(2 * 10 ^ 1) := abs_roundDec_sub 1 _
      _ = 1/20 := by norm_num
  have h2 : |100 * row.node_hours / tot
      - 100 * (((selectJobdesc q c).map QJob.node_hours).sum) / tot| ≤ 5/tot := by
    have hr : 100 * row.node_hours / tot
        - 100 * (((selectJobdesc q c).map QJob.node_hours).sum) / tot
        = 100 * (row.node_hours - ((selectJobdesc q c).map QJob.node_hours).sum) / tot := by
      field_simp
      ring
    rw [hr, abs_div, abs_of_pos htot, div_le_div_iff htot htot]
    calc |100 * (row.node_hours - ((selectJobdesc q c).map QJob.node_hours).sum)| * tot
        = 100 * |row.node_hours - ((selectJobdesc q c).map QJob.node_hours).sum| * tot := by
          rw [abs_mul, abs_of_pos (by norm_num : (0:ℚ) < 100)]
      _ ≤ 100 * (1/20) * tot := by
          apply mul_le_mul_of_nonneg_right _ (le_of_lt htot)
          apply mul_le_mul_of_nonneg_left hnhS (by norm_num)
      _ = 5 * tot := by ring
  calc |row.percent - 100 * (((selectJobdesc q c).map QJob.node_hours).sum) / tot|
      ≤ |row.percent - 100 * row.node_hours / tot|
        + |100 * row.node_hours / tot
            - 100 * (((selectJobdesc q c).map QJob.node_hours).sum) / tot| :=
        abs_sub_le _ _ _
    _ ≤ 1/20 + 5/tot := add_le_add h1 h2

/-- The sum of the rounded percentages differs from the sum of the exact
percentages by at most `1/20 + 5/tot` per category. -/
theorem summarizeAux_percent_sum_bound (tot : ℚ) (htot : 0 < tot) (q : List QJob)
    (cats : List String) (rows : List SummaryRow)
    (h : summarizeAux tot q cats = some rows) :
    |(rows.map SummaryRow.percent).sum -
        (cats.map (fun c => 100 * ((selectJobdesc q c).map QJob.node_hours).sum / tot)).sum|
      ≤ (cats.length : ℚ) * (1/20 + 5/tot) := by
  induction cats generalizing rows with
  | nil =>
    rw [summarizeAux] at h
    cases h
    simp
  | cons c cs ih =>
    rw [summarizeAux] at h
    cases hc : summarizeRow tot q c with
    | none => rw [hc] at h; exact absurd h (by simp)
    | some row =>
      cases hcs : summarizeAux tot q cs with
      | none => rw [hc, hcs] at h; exact absurd h (by simp)
      | some rest =>
        rw [hc, hcs] at h
        cases h
        have hrow := percent_close tot htot q c row hc
        have hrest := ih rest hcs
        simp only [List.map_cons, List.sum_cons, List.length_cons]
        have key : row.percent + (rest.map SummaryRow.percent).sum
            - (100 * ((selectJobdesc q c).map QJob.node_hours).sum / tot
              + (cs.map (fun d =>
                  100 * ((selectJobdesc q d).map QJob.node_hours).sum / tot)).sum)
            = (row.percent - 100 * ((selectJobdesc q c).map QJob.node_hours).sum / tot)
              + ((rest.map SummaryRow.percent).sum
                - (cs.map (fun d =>
                    100 * ((selectJobdesc q d).map QJob.node_hours).sum / tot)).sum) := by
          ring
        rw [key]
        calc |(row.percent - 100 * ((selectJobdesc q c).map QJob.node_hours).sum / tot)
              + ((rest.map SummaryRow.percent).sum
                - (cs.map (fun d =>
                    100 * ((selectJobdesc q d).map QJob.node_hours).sum / tot)).sum)|
            ≤ |row.percent - 100 * ((selectJobdesc q c).map QJob.node_hours).sum / tot|
              + |(rest.map SummaryRow.percent).sum
                - (cs.map (fun d =>
                    100 * ((selectJobdesc q d).map QJob.node_hours).sum / tot)).sum| :=
              abs_add _ _
          _ ≤ (1/20 + 5/tot) + (cs.length : ℚ) * (1/20 + 5/tot) := add_le_add hrow hrest
          _ = ((cs.length + 1 : ℕ) : ℚ) * (1/20 + 5/tot) := by push_cast; ring

/-- Rows produced by the summary loop carry their category names, in the
loop's order. -/
theorem forall₂_summarizeRow_map_jobdesc (tot : ℚ) (q : List QJob) (cats : List String)
    (rows : List SummaryRow)
    (h : List.Forall₂ (fun c row => summarizeRow tot q c = some row) cats rows) :
    rows.map SummaryRow.jobdesc = cats := by
  induction h with
  | nil => rfl
  | @cons c row cs rest hcr htail ih =>
    rw [List.map_cons, ih, (summarizeRow_some tot q c row hcr).1]

/-- Unfolding step for association-list lookup. -/
theorem lookupAssoc_cons (kv : String × List Int) (l : List (String × List Int)) (k : String) :
    lookupAssoc (kv :: l) k
      = if (kv.1 == k) = true then some kv.2 else lookupAssoc l k := by
  by_cases hk : (kv.1 == k) = true
  · rw [lookupAssoc, List.find?_cons_of_pos l hk, if_pos hk]
    rfl
  · rw [lookupAssoc, List.find?_cons_of_neg l hk, if_neg hk]
    rfl

/-- Overwriting an existing key makes its lookup return the new value. -/
theorem lookupAssoc_map_set (m : List (String × List Int)) (k : String) (v : List Int)
    (h : m.any (fun kv => kv.1 == k) = true) :
    lookupAssoc (m.map (fun kv => if kv.1 == k then (kv.1, v) else kv)) k = some v := by
  induction m with
  | nil => simp at h
  | cons kv rest ih =>
    rw [List.map_cons]
    by_cases hk : (kv.1 == k) = true
    · rw [if_pos hk, lookupAssoc_cons]
      simp only [hk, if_true]
    · rw [if_neg hk, lookupAssoc_cons, if_neg hk]
      rw [List.any_cons] at h
      rcases Bool.or_eq_true_iff.mp h with hkv | hrest
      · exact absurd hkv hk
      · exact ih hrest

/-- Appending a fresh key makes its lookup return the appended value. -/
theorem lookupAssoc_append_fresh (m : List (String × List Int)) (k : String) (v : List Int)
    (h : m.any (fun kv => kv.1 == k) = false) :
    lookupAssoc (m ++ [(k, v)]) k = some v := by
  induction m with
  | nil => simp [lookupAssoc]
  | cons kv rest ih =>
    rw [List.cons_append, lookupAssoc_cons]
    rw [List.any_cons] at h
    rcases Bool.or_eq_false_iff.mp h with ⟨hkv, hrest⟩
    rw [if_neg (by simp [hkv])]
    exact ih hrest

/-- Python dict assignment followed by lookup of the same key yields the
assigned value, whether or not the key was present. -/
theorem lookupAssoc_setAssoc (m : List (String × List Int)) (k : String) (v : List Int) :
    lookupAssoc (setAssoc m k v) k = some v := by
  rw [setAssoc]
  by_cases h : m.any (fun kv => kv.1 == k) = true
  · rw [if_pos h]
    exact lookupAssoc_map_set m k v h
  · rw [if_neg h]
    exact lookupAssoc_append_fresh m k v (Bool.not_eq_true _ ▸ Bool.of_not_eq_true h)

/-- Membership extraction along a positional relation. -/
theorem forall₂_exists_left {α β : Type} {R : α → β → Prop} {l₁ : List α} {l₂ : List β}
    (h : List.Forall₂ R l₁ l₂) (b : β) (hb : b ∈ l₂) : ∃ a ∈ l₁, R a b := by
  induction h with
  | nil => cases hb
  | @cons a b' l₁' l₂' hr ht ih =>
    rcases List.mem_cons.mp hb with rfl | hb'
    · exact ⟨a, List.mem_cons_self a l₁', hr⟩
    · obtain ⟨a', ha', hra'⟩ := ih hb'
      exact ⟨a', List.mem_cons_of_mem a ha', hra'⟩

/-! ## Claim theorems -/

/-- Claim C7 (confirmed): for every well-formed elapsed string of three
colon-separated integer fields `HH:MM:SS`, `hhmmss2hours` returns
`HH + MM/60 + SS/3600`; in particular `"01:30:00"` maps to `1.5` and
`"100:00:00"` to `100.0` (hours field unbounded). -/
theorem C7_hhmmss_formula :
    (∀ (s : String) (a b c : List Char) (h m sec : ℤ),
        splitOnChar ':' s.data = [a, b, c] →
        parseInt a = some h → parseInt b = some m → parseInt c = some sec →
        hhmmss2hours s = some ((h : ℚ) + (m : ℚ) / 60 + (sec : ℚ) / 3600))
      ∧ hhmmss2hours "01:30:00" = some (3/2)
      ∧ hhmmss2hours "100:00:00" = some 100 := by
  refine ⟨hhmmss2hours_fields, ?_, ?_⟩
  · with_unfolding_all rfl
  · with_unfolding_all rfl

/-- Witness for C7: the formula applied to the concrete split of
`"02:00:30"`. -/
theorem C7_hhmmss_formula_witness :
    hhmmss2hours "02:00:30" = some ((2 : ℚ) + (0 : ℚ) / 60 + (30 : ℚ) / 3600) :=
  C7_hhmmss_formula.1 "02:00:30" "02".data "00".data "30".data 2 0 30
    (by decide) (by decide) (by decide) (by decide)

/-- Claim C6 (confirmed): an elapsed string that is not exactly three
colon-separated integer fields (for example `"1:30"`) is a fatal error of
the aggregation: the record is not skipped and no aggregated table is
returned. -/
theorem C6_malformed_elapsed_fatal (raws : List RawJob) (r : RawJob) (hmem : r ∈ raws)
    (hbad : (splitOnChar ':' r.elapsed.data).length ≠ 3 ∨ hhmmss2hours r.elapsed = none) :
    deriveQinfo raws = none := by
  apply deriveQinfo_none_of_mem raws r hmem
  rw [deriveRow_eq_none_iff]
  rcases hbad with hlen | hnone
  · exact hhmmss2hours_none_of_length r.elapsed hlen
  · exact hnone

/-- Witness for C6: a table containing the `"1:30"` record aggregates to
`none`. -/
theorem C6_malformed_elapsed_fatal_witness : deriveQinfo c6_raws = none :=
  C6_malformed_elapsed_fatal c6_raws (mkRaw "" 1 "1:30" "COMPLETED" "arc")
    (by decide) (Or.inl (by decide))

/-- Claim C5 (confirmed): in the aggregated table, a record's `GPU` field
is `1` exactly when its constraints string contains `"gpu"` as a
case-sensitive substring, and `0` otherwise. -/
theorem C5_gpu_flag (raws : List RawJob) (q : List QJob) (h : deriveQinfo raws = some q) :
    List.Forall₂ (fun (r : RawJob) (j : QJob) =>
      (j.gpu = 1 ↔ ∃ l t, r.constraints.data = l ++ "gpu".data ++ t) ∧
        (j.gpu = 0 ↔ ¬ ∃ l t, r.constraints.data = l ++ "gpu".data ++ t)) raws q := by
  apply (deriveQinfo_forall₂ raws q h).imp
  intro r j hr
  obtain ⟨-, hgpu, -, -, -⟩ := deriveRow_some r j hr
  rw [hgpu]
  exact ⟨gpuFlag_eq_one_iff r.constraints, gpuFlag_eq_zero_iff r.constraints⟩

/-- Witness for C5 on the concrete constraints `"gpu&hbm80g"` and `"cpu"`. -/
theorem C5_gpu_flag_witness :
    List.Forall₂ (fun (r : RawJob) (j : QJob) =>
      (j.gpu = 1 ↔ ∃ l t, r.constraints.data = l ++ "gpu".data ++ t) ∧
        (j.gpu = 0 ↔ ¬ ∃ l t, r.constraints.data = l ++ "gpu".data ++ t)) c5_raws c5_table :=
  C5_gpu_flag c5_raws c5_table (by with_unfolding_all rfl)

/-- Claim C4 (confirmed): in the aggregated table, every state beginning
with `"CANCELLED by"` has been rewritten to exactly `"CANCELLED"`, and
every state not beginning with that text (plain `"CANCELLED"` and
`"COMPLETED"` included) is unchanged. -/
theorem C4_cancelled_normalization (raws : List RawJob) (q : List QJob)
    (h : deriveQinfo raws = some q) :
    List.Forall₂ (fun (r : RawJob) (j : QJob) =>
      ((∃ t, r.state.data = "CANCELLED by".data ++ t) → j.state = "CANCELLED") ∧
        ((¬ ∃ t, r.state.data = "CANCELLED by".data ++ t) → j.state = r.state)) raws q := by
  apply (deriveQinfo_forall₂ raws q h).imp
  intro r j hr
  obtain ⟨hstate, -⟩ := deriveRow_some r j hr
  rw [hstate, normState]
  constructor
  · intro hex
    rw [if_pos ((startsWithList_iff _ _).mpr hex)]
  · intro hnex
    rw [if_neg (fun hsw => hnex ((startsWithList_iff _ _).mp hsw))]

/-- Witness for C4 on the concrete states `"CANCELLED by 12345"`,
`"CANCELLED"` and `"COMPLETED"`. -/
theorem C4_cancelled_normalization_witness :
    List.Forall₂ (fun (r : RawJob) (j : QJob) =>
      ((∃ t, r.state.data = "CANCELLED by".data ++ t) → j.state = "CANCELLED") ∧
        ((¬ ∃ t, r.state.data = "CANCELLED by".data ++ t) → j.state = r.state))
      c4_raws c4_table :=
  C4_cancelled_normalization c4_raws c4_table (by with_unfolding_all rfl)

/-- Claim C2 (confirmed): whenever some whitelisted category has no row in
the table, `summarize_qinfo` aborts instead of returning a summary. -/
theorem C2_missing_category_fatal (qinfo : List QJob)
    (h : ∃ c ∈ whitelist, ∀ j ∈ qinfo, j.jobdesc ≠ c) :
    summarize_qinfo qinfo = none := by
  obtain ⟨c, hc, hnone⟩ := h
  rw [summarize_qinfo]
  apply summarizeAux_none_of_mem _ _ _ c hc
  rw [summarizeRow_eq_none_iff, selectJobdesc_eq_nil_iff]
  exact hnone

/-- Witness for C2: a table with only an `arc` row has no `linkcal` row,
so summarizing it aborts. -/
theorem C2_missing_category_fatal_witness : summarize_qinfo c2_table = none :=
  C2_missing_category_fatal c2_table ⟨"linkcal", by decide, by decide⟩

/-- Claim C10 (confirmed): the `zpix` entry of the category-to-job-ids
mapping is exactly the log-filename scan result; qids collected from `zpix`
proctable rows are discarded, because the assignment replaces the entry.
The concrete conjuncts show proctable `zpix` qids `[11, 12]` present before
the assignment and replaced by the log-scan qids `[31, 32]` after it. -/
theorem C10_zpix_replaced :
    (∀ (pts : List ProcTable) (logs : List String),
        lookupAssoc (buildJobdescQids pts logs) "zpix" = some (get_zpix_qids logs))
      ∧ lookupAssoc (collectJobdescQids c10_ptables) "zpix" = some [11, 12]
      ∧ lookupAssoc (buildJobdescQids c10_ptables c10_logs) "zpix" = some [31, 32] := by
  refine ⟨?_, ?_, ?_⟩
  · intro pts logs
    rw [buildJobdescQids]
    exact lookupAssoc_setAssoc _ "zpix" _
  · with_unfolding_all rfl
  · with_unfolding_all rfl

/-- Counterexample to C1 as stated: on the two-arc-row table of the
scenario, `summarize_qinfo` does not return a table at all — the first
whitelisted category, `linkcal`, has an empty selection, which is the
fatal `IndexError` of the reducer. -/
theorem C1_counterexample : summarize_qinfo c1_table = none := by
  with_unfolding_all rfl

/-- Claim C1 (corrected): on the table with exactly the two `arc` rows of
the scenario, `summarize_qinfo` aborts with the empty-category error
instead of returning a table; the `arc` summary row that the per-category
reduction computes over this table (with its grand total) does have
`NODE_HOURS = 3.0`, `PERCENT = 100.0`, `COMPLETED = 1`, `FAILED = 1` and
`0` in the `TIMEOUT`, `CANCELLED` and `NODE_FAIL` columns. -/
theorem C1_arc_scenario :
    deriveQinfo c1_raws = some c1_table
      ∧ summarize_qinfo c1_table = none
      ∧ summarizeRow (totNodeHours c1_table) c1_table "arc"
          = some ⟨"arc", "cpu", 3, 100, 1, 0, 1, 0, 0⟩ := by
  refine ⟨?_, ?_, ?_⟩
  · with_unfolding_all rfl
  · with_unfolding_all rfl
  · with_unfolding_all rfl

/-- Claim C3 (confirmed): the percentage denominator is the node-hour sum
over all rows of the table, whitelisted or not; rows of non-whitelisted
categories never produce a summary row; and their presence is no error —
the summary succeeds whenever every whitelisted category has a row. -/
theorem C3_grand_total_over_all_rows (qinfo : List QJob) :
    ((∀ c ∈ whitelist, ∃ j ∈ qinfo, j.jobdesc = c) →
        ∃ rows, summarize_qinfo qinfo = some rows)
      ∧ (∀ rows, summarize_qinfo qinfo = some rows →
          ∀ row ∈ rows, row.jobdesc ∈ whitelist ∧
            row.percent
              = roundDec 1 (100 * row.node_hours / (qinfo.map QJob.node_hours).sum)) := by
  constructor
  · intro hcov
    rw [summarize_qinfo]
    apply summarizeAux_some_of_forall
    intro c hc
    rw [Ne, summarizeRow_eq_none_iff, selectJobdesc_eq_nil_iff]
    push_neg
    obtain ⟨j, hj, hjc⟩ := hcov c hc
    exact ⟨j, hj, hjc⟩
  · intro rows hrows row hrow
    rw [summarize_qinfo] at hrows
    obtain ⟨c, hc, hcrow⟩ :=
      forall₂_exists_left (summarizeAux_forall₂ _ _ _ _ hrows) row hrow
    obtain ⟨hjd, -, hpct⟩ := summarizeRow_some _ _ _ _ hcrow
    constructor
    · rw [hjd]
      exact hc
    · rw [hpct]
      rfl

/-- Witness for C3: the table with all ten categories plus an
`unlistedcat` row summarizes successfully. -/
theorem C3_grand_total_over_all_rows_witness :
    ∃ rows, summarize_qinfo c3_table = some rows :=
  (C3_grand_total_over_all_rows c3_table).1 (by decide)

/-- Claim C8 (confirmed): a successful summary has exactly one row per
whitelisted category, in exactly the fixed whitelist order, whatever the
order of the input table. -/
theorem C8_fixed_row_order (qinfo : List QJob) (rows : List SummaryRow)
    (h : summarize_qinfo qinfo = some rows) :
    rows.map SummaryRow.jobdesc = whitelist := by
  rw [summarize_qinfo] at h
  exact forall₂_summarizeRow_map_jobdesc _ _ _ _ (summarizeAux_forall₂ _ _ _ _ h)

/-- Witness for C8: a table listing the categories in reversed order still
produces rows in whitelist order. -/
theorem C8_fixed_row_order_witness : c8_rows.map SummaryRow.jobdesc = whitelist :=
  C8_fixed_row_order c8_table c8_rows (by with_unfolding_all rfl)

/-- Claim C9 (confirmed): when every row's category is whitelisted and the
grand total `tot` is positive, the percentages of a successful summary sum
to `100` within the accumulated rounding tolerance — at most `1/20 + 5/tot`
for each of the ten categories (node-hours are rounded to 1 decimal before
the percentage, and the percentage to 1 decimal), i.e. `1/2 + 50/tot` in
all. -/
theorem C9_percent_sum_near_100 (qinfo : List QJob) (rows : List SummaryRow)
    (h : summarize_qinfo qinfo = some rows)
    (hall : ∀ j ∈ qinfo, j.jobdesc ∈ whitelist)
    (htot : 0 < totNodeHours qinfo) :
    |(rows.map SummaryRow.percent).sum - 100| ≤ 1/2 + 50 / totNodeHours qinfo := by
  rw [summarize_qinfo] at h
  have hb := summarizeAux_percent_sum_bound (totNodeHours qinfo) htot qinfo whitelist rows h
  have hideal : (whitelist.map (fun c =>
      100 * ((selectJobdesc qinfo c).map QJob.node_hours).sum / totNodeHours qinfo)).sum
      = 100 := by
    have hpart := catSum_partition whitelist qinfo (by decide) hall
    have hrw : whitelist.map (fun c =>
        100 * ((selectJobdesc qinfo c).map QJob.node_hours).sum / totNodeHours qinfo)
        = whitelist.map (fun c =>
            (100 / totNodeHours qinfo) * ((selectJobdesc qinfo c).map QJob.node_hours).sum) := by
      apply List.map_congr_left
      intro c _
      ring
    rw [hrw, List.sum_map_mul_left, hpart, div_mul_cancel₀ 100 (ne_of_gt htot)]
  rw [hideal] at hb
  have hlen : ((whitelist.length : ℕ) : ℚ) = 10 := by norm_num [whitelist]
  rw [hlen] at hb
  calc |(rows.map SummaryRow.percent).sum - 100|
      ≤ 10 * (1/20 + 5 / totNodeHours qinfo) := hb
    _ = 1/2 + 50 / totNodeHours qinfo := by ring

/-- Witness for C9: on the ten-category table with total 10, the rounded
percentages sum to 100, within the stated tolerance. -/
theorem C9_percent_sum_near_100_witness :
    |((c9_rows.map SummaryRow.percent).sum : ℚ) - 100| ≤ 1/2 + 50 / totNodeHours c9_table :=
  C9_percent_sum_near_100 c9_table c9_rows (by with_unfolding_all rfl) (by decide)
    ((by norm_num : (0:ℚ) < 10).trans_eq (by with_unfolding_all rfl))
